import Mathlib

/-!
manyjson: the `JsonManager` path registry

A shallow embedding of `src/manyjson.cpp` / `include/manyjson.h`.

* `std::vector<std::string>` is a `List String`; `push_back` is `· ++ [x]`.
* `std::cout` is a character stream: the embedding keeps the characters written so far
  in the field `cout`. `std::endl` writes the single character `'\n'`.
* A method `R C::m(args)` becomes `m : JsonManager → args → R × JsonManager`, so that a
  `const` method is a function whose second component is proved (not assumed) to be the
  input state.
* `operator<<` on a `size_t` prints the number in base ten: `Nat.repr`.
-/

namespace manyjson

/-- The object state of `class JsonManager` together with the characters the object has
written to `std::cout`. -/
structure JsonManager where
  /-- The private member `std::vector<std::string> json_files_`. -/
  json_files_ : List String
  /-- The characters written to `std::cout`, oldest first. -/
  cout : String
  deriving DecidableEq, Repr

/-- The character sequence `std::endl` inserts into the stream. -/
def endl : String := "\n"

/-- `JsonManager::JsonManager()`: the vector member is default-constructed (empty) and the
body prints one line. The console is taken to be empty when the object is created. -/
def JsonManager.construct : JsonManager :=
  ⟨[], "" ++ "JsonManager constructor called" ++ endl⟩

/-- `JsonManager::~JsonManager()`: prints one line. -/
def JsonManager.destructor (self : JsonManager) : JsonManager :=
  ⟨self.json_files_, self.cout ++ "JsonManager destructor called" ++ endl⟩

/-- `bool JsonManager::addJsonFile(const std::string& filepath)`. -/
def JsonManager.addJsonFile (self : JsonManager) (filepath : String) : Bool × JsonManager :=
  let json_files_ := self.json_files_ ++ [filepath]
  let cout := self.cout ++ "Added JSON file: " ++ filepath ++ endl
  (true, ⟨json_files_, cout⟩)

/-- `std::vector<std::string> JsonManager::getJsonFiles() const`: returns the vector by
value. -/
def JsonManager.getJsonFiles (self : JsonManager) : List String × JsonManager :=
  (self.json_files_, self)

/-- `void JsonManager::analyzeRelationships()`. -/
def JsonManager.analyzeRelationships (self : JsonManager) : Unit × JsonManager :=
  let cout := self.cout ++ "Analyzing relationships between "
    ++ Nat.repr self.json_files_.length ++ " JSON files..." ++ endl
  ((), ⟨self.json_files_, cout⟩)

/-! Call sequences -/

/-- One call on the public interface of a live `JsonManager`. -/
inductive Call where
  | addJsonFile (filepath : String)
  | getJsonFiles
  | analyzeRelationships
  deriving DecidableEq, Repr

/-- The state after one call (the returned value is discarded). -/
def Call.exec (self : JsonManager) : Call → JsonManager
  | .addJsonFile filepath => (self.addJsonFile filepath).2
  | .getJsonFiles => self.getJsonFiles.2
  | .analyzeRelationships => self.analyzeRelationships.2

/-- The state after a sequence of calls, made in list order, starting from `self`. -/
def runFrom (self : JsonManager) (calls : List Call) : JsonManager :=
  calls.foldl Call.exec self

/-- The state after a sequence of calls on a freshly constructed manager. -/
def run (calls : List Call) : JsonManager :=
  runFrom JsonManager.construct calls

/-- The arguments of the `addJsonFile` calls of a call sequence, in call order. -/
def addedPaths : List Call → List String
  | [] => []
  | .addJsonFile filepath :: calls => filepath :: addedPaths calls
  | _ :: calls => addedPaths calls

/-- The state after `addJsonFile(p_0), ..., addJsonFile(p_{N-1})` on a fresh manager. -/
def addAll (paths : List String) : JsonManager :=
  run (paths.map Call.addJsonFile)

/-- Whether a call is an `addJsonFile` call. -/
def Call.isAdd : Call → Bool
  | .addJsonFile _ => true
  | _ => false

/-- The number of `addJsonFile` calls in a call sequence. -/
def numAdds (calls : List Call) : Nat :=
  calls.countP Call.isAdd

/-! Reading the console as lines -/

/-- The lines of a character sequence: maximal runs without `'\n'`, each ended by `'\n'`
(a last run without a final `'\n'` counts as a line too). -/
def splitLines : List Char → List (List Char)
  | [] => []
  | c :: cs =>
    if c = '\n' then [] :: splitLines cs
    else
      match splitLines cs with
      | [] => [[c]]
      | l :: ls => (c :: l) :: ls

/-- The lines of the console text. -/
def consoleLines (cout : String) : List String :=
  (splitLines cout.data).map String.mk

/-- The path read off one console line: what follows `"Added JSON file: "`, for a line
that starts with it. -/
def addedLinePath (line : String) : Option String :=
  if "Added JSON file: ".data.isPrefixOf line.data then
    some (String.mk (line.data.drop "Added JSON file: ".length))
  else none

/-- The paths read off the `"Added JSON file: "` lines of the console, in order. -/
def loggedPaths (cout : String) : List String :=
  (consoleLines cout).filterMap addedLinePath

/-- A character sequence is terminated when it is empty or ends with `'\n'`. -/
def Terminated (t : List Char) : Prop :=
  t = [] ∨ ∃ u, t = u ++ ['\n']

/-! Lemmas on lines -/

theorem splitLines_eq_nil (t : List Char) (h : splitLines t = []) : t = [] := by
  cases t with
  | nil => rfl
  | cons c cs =>
    simp only [splitLines] at h
    split_ifs at h
    split at h <;> simp at h

theorem Terminated.tail (c : Char) (t : List Char) (h : Terminated (c :: t)) :
    Terminated t := by
  rcases h with h | ⟨u, hu⟩
  · simp at h
  · cases u with
    | nil => simp at hu; left; exact hu.2
    | cons d u => simp at hu; right; exact ⟨u, hu.2⟩

theorem splitLines_append (t rest : List Char) (ht : Terminated t) :
    splitLines (t ++ rest) = splitLines t ++ splitLines rest := by
  induction t with
  | nil => simp [splitLines]
  | cons c t ih =>
    have ht2 := Terminated.tail c t ht
    by_cases hc : c = '\n'
    · simp [splitLines, hc, ih ht2]
    · have hne : t ≠ [] := by
        rintro rfl
        rcases ht with h | ⟨u, hu⟩
        · simp at h
        · cases u with
          | nil => simp at hu; exact hc hu
          | cons d u => simp at hu
      have hsp : splitLines t ≠ [] := fun h => hne (splitLines_eq_nil t h)
      cases hst : splitLines t with
      | nil => exact absurd hst hsp
      | cons l ls => simp [splitLines, hc, ih ht2, hst]

theorem splitLines_line (l : List Char) (hl : '\n' ∉ l) :
    splitLines (l ++ ['\n']) = [l] := by
  induction l with
  | nil => simp [splitLines]
  | cons c l ih =>
    have hc : c ≠ '\n' := fun h => hl (by simp [h])
    have hl2 : '\n' ∉ l := fun h => hl (by simp [h])
    simp [splitLines, hc, ih hl2]

theorem splitLines_append_line (t l : List Char) (ht : Terminated t) (hl : '\n' ∉ l) :
    splitLines (t ++ (l ++ ['\n'])) = splitLines t ++ [l] := by
  rw [splitLines_append t _ ht, splitLines_line l hl]

theorem ite_char_ne (p : Prop) [Decidable p] (a b c : Char) (ha : a ≠ c) (hb : b ≠ c) :
    (if p then a else b) ≠ c := by
  split_ifs <;> assumption

theorem digitChar_ne_newline (n : Nat) : Nat.digitChar n ≠ '\n' := by
  unfold Nat.digitChar
  repeat' apply ite_char_ne
  all_goals decide

theorem toDigitsCore_no_newline (fuel : Nat) : ∀ (n : Nat) (ds : List Char),
    '\n' ∉ ds → '\n' ∉ Nat.toDigitsCore 10 fuel n ds := by
  induction fuel with
  | zero => intro n ds h; simpa [Nat.toDigitsCore] using h
  | succ fuel ih =>
    intro n ds h
    have hd : '\n' ∉ Nat.digitChar (n % 10) :: ds := by
      simp only [List.mem_cons, not_or]
      exact ⟨fun e => digitChar_ne_newline _ e.symm, h⟩
    simp only [Nat.toDigitsCore]
    split_ifs
    · exact hd
    · exact ih _ _ hd

theorem repr_no_newline (n : Nat) : '\n' ∉ (Nat.repr n).data := by
  simp only [Nat.repr, List.asString, Nat.toDigits]
  exact toDigitsCore_no_newline _ _ _ (by simp)

/-! Lemmas on the console of a manager -/

theorem consoleLines_append_line (cout line : String) (ht : Terminated cout.data)
    (hl : '\n' ∉ line.data) :
    consoleLines (cout ++ (line ++ endl)) = consoleLines cout ++ [line] := by
  have h := splitLines_append_line cout.data line.data ht hl
  simp only [consoleLines, String.data_append, endl]
  rw [h]
  simp

theorem addedLinePath_added (p : String) :
    addedLinePath ("Added JSON file: " ++ p) = some p := by
  have h1 : "Added JSON file: ".data.isPrefixOf ("Added JSON file: ".data ++ p.data) = true := by
    rw [ List.isPrefixOf_iff_prefix]
    exact List.prefix_append _ _
  have h2 : ("Added JSON file: ".data ++ p.data).drop "Added JSON file: ".length = p.data :=
    List.drop_left _ _
  simp only [addedLinePath, String.data_append, h1, if_true, h2]

theorem addedLinePath_analyzing (n : Nat) :
    addedLinePath ("Analyzing relationships between " ++ Nat.repr n ++ " JSON files...")
      = none := by
  have h : ∀ rest : List Char,
      "Added JSON file: ".data.isPrefixOf ("Analyzing relationships between ".data ++ rest)
        = false := fun _ => rfl
  simp only [addedLinePath, String.data_append, List.append_assoc, h]
  rfl

theorem added_line_no_newline (p : String) (hp : '\n' ∉ p.data) :
    '\n' ∉ ("Added JSON file: " ++ p).data := by
  simp only [String.data_append, List.mem_append, not_or]
  exact ⟨by decide, hp⟩

theorem analyzing_line_no_newline (n : Nat) :
    '\n' ∉ ("Analyzing relationships between " ++ Nat.repr n ++ " JSON files...").data := by
  simp only [String.data_append, List.mem_append, not_or]
  exact ⟨⟨by decide, repr_no_newline n⟩, by decide⟩

theorem addJsonFile_cout (self : JsonManager) (p : String) :
    (self.addJsonFile p).2.cout = self.cout ++ (("Added JSON file: " ++ p) ++ endl) := by
  simp [JsonManager.addJsonFile, String.append_assoc]

theorem analyzeRelationships_cout (self : JsonManager) :
    self.analyzeRelationships.2.cout = self.cout ++
      (("Analyzing relationships between " ++ Nat.repr self.json_files_.length
        ++ " JSON files...") ++ endl) := by
  simp [JsonManager.analyzeRelationships, String.append_assoc]

theorem terminated_append_endl (cout line : String) :
    Terminated (cout ++ (line ++ endl)).data := by
  right
  exact ⟨cout.data ++ line.data, by simp [String.data_append, endl]⟩

theorem exec_terminated (self : JsonManager) (c : Call) (h : Terminated self.cout.data) :
    Terminated (c.exec self).cout.data := by
  cases c with
  | addJsonFile p =>
    simp only [Call.exec, addJsonFile_cout]
    exact terminated_append_endl _ _
  | getJsonFiles => exact h
  | analyzeRelationships =>
    simp only [Call.exec, analyzeRelationships_cout]
    exact terminated_append_endl _ _

theorem runFrom_terminated (calls : List Call) : ∀ self : JsonManager,
    Terminated self.cout.data → Terminated (runFrom self calls).cout.data := by
  induction calls with
  | nil => intro self h; exact h
  | cons c calls ih =>
    intro self h
    exact ih (c.exec self) (exec_terminated self c h)

theorem run_terminated (calls : List Call) : Terminated (run calls).cout.data :=
  runFrom_terminated calls _ (Or.inr ⟨"JsonManager constructor called".data, rfl⟩)

theorem runFrom_json_files (calls : List Call) : ∀ self : JsonManager,
    (runFrom self calls).json_files_ = self.json_files_ ++ addedPaths calls := by
  induction calls with
  | nil => intro self; simp [runFrom, addedPaths]
  | cons c calls ih =>
    intro self
    have h := ih (c.exec self)
    simp only [runFrom, List.foldl_cons] at h ⊢
    rw [h]
    cases c <;>
      simp [Call.exec, addedPaths, JsonManager.addJsonFile, JsonManager.getJsonFiles,
        JsonManager.analyzeRelationships]

theorem run_json_files (calls : List Call) : (run calls).json_files_ = addedPaths calls := by
  simp [run, runFrom_json_files, JsonManager.construct]

theorem loggedPaths_append_line (cout line : String) (ht : Terminated cout.data)
    (hl : '\n' ∉ line.data) :
    loggedPaths (cout ++ (line ++ endl)) = loggedPaths cout ++ (addedLinePath line).toList := by
  simp only [loggedPaths, consoleLines_append_line cout line ht hl, List.filterMap_append]
  cases hline : addedLinePath line <;> simp [List.filterMap, hline]

theorem runFrom_loggedPaths (calls : List Call) : ∀ self : JsonManager,
    Terminated self.cout.data → loggedPaths self.cout = self.json_files_ →
    (∀ q ∈ addedPaths calls, '\n' ∉ q.data) →
    loggedPaths (runFrom self calls).cout = (runFrom self calls).json_files_ := by
  induction calls with
  | nil => intro self _ h _; exact h
  | cons c calls ih =>
    intro self ht h hq
    have ht2 := exec_terminated self c ht
    cases c with
    | addJsonFile p =>
      have hp : '\n' ∉ p.data := hq p (by simp [addedPaths])
      refine ih _ ht2 ?_ (fun q hmem => hq q (by simp [addedPaths, hmem]))
      simp only [Call.exec, addJsonFile_cout]
      rw [loggedPaths_append_line _ _ ht (added_line_no_newline p hp), addedLinePath_added, h]
      simp [JsonManager.addJsonFile]
    | getJsonFiles =>
      exact ih _ ht2 h (fun q hmem => hq q (by simpa [addedPaths] using hmem))
    | analyzeRelationships =>
      refine ih _ ht2 ?_ (fun q hmem => hq q (by simpa [addedPaths] using hmem))
      simp only [Call.exec, analyzeRelationships_cout]
      rw [loggedPaths_append_line _ _ ht (analyzing_line_no_newline _), addedLinePath_analyzing,
        h]
      simp [JsonManager.analyzeRelationships]

theorem run_loggedPaths (calls : List Call) (hq : ∀ q ∈ addedPaths calls, '\n' ∉ q.data) :
    loggedPaths (run calls).cout = (run calls).json_files_ :=
  runFrom_loggedPaths calls _ (Or.inr ⟨"JsonManager constructor called".data, rfl⟩)
    (by decide) hq

theorem addedPaths_map_addJsonFile (paths : List String) :
    addedPaths (paths.map Call.addJsonFile) = paths := by
  induction paths with
  | nil => rfl
  | cons p paths ih => simp [addedPaths, ih]

theorem addedPaths_length (calls : List Call) : (addedPaths calls).length = numAdds calls := by
  induction calls with
  | nil => rfl
  | cons c calls ih =>
    cases c <;> simp [addedPaths, numAdds, Call.isAdd, List.countP_cons] at ih ⊢ <;> exact ih

/-! The claims -/

/-- C1: calling `addJsonFile(p_0)`, ..., `addJsonFile(p_{N-1})` in that order on a freshly
constructed manager makes `getJsonFiles()` return exactly `[p_0, ..., p_{N-1}]`: its length
is `N` and its `i`-th element is `p_i`; adding `"test1.json"` then `"test2.json"` yields
`["test1.json", "test2.json"]`. -/
theorem addJsonFile_sequence_getJsonFiles (paths : List String) :
    (addAll paths).getJsonFiles.1 = paths ∧
    (addAll paths).getJsonFiles.1.length = paths.length ∧
    (∀ i : Nat, (addAll paths).getJsonFiles.1[i]? = paths[i]?) ∧
    (addAll ["test1.json", "test2.json"]).getJsonFiles.1 = ["test1.json", "test2.json"] := by
  have h : ∀ ps : List String, (addAll ps).getJsonFiles.1 = ps := fun ps => by
    simp [addAll, JsonManager.getJsonFiles, run_json_files, addedPaths_map_addJsonFile]
  exact ⟨h paths, by rw [h], fun i => by rw [h], h _⟩

/-- C2: `addJsonFile` returns `true` for every path and every registry state, in particular
for the empty path and for a path that is already registered. -/
theorem addJsonFile_returns_true (self : JsonManager) (filepath : String) :
    (self.addJsonFile filepath).1 = true ∧
    (self.addJsonFile "").1 = true ∧
    ((self.addJsonFile filepath).2.addJsonFile filepath).1 = true :=
  ⟨rfl, rfl, rfl⟩

/-- C3: a freshly constructed manager has an empty registry: `getJsonFiles()` has
length 0. -/
theorem construct_getJsonFiles_empty :
    JsonManager.construct.getJsonFiles.1 = [] ∧
    JsonManager.construct.getJsonFiles.1.length = 0 :=
  ⟨rfl, rfl⟩

/-- C4: after any finite sequence of `addJsonFile`, `getJsonFiles` and
`analyzeRelationships` calls on a fresh manager the registered sequence is the list of the
paths passed to `addJsonFile` in call order, its length is the number of `addJsonFile`
calls, and every single call either leaves the sequence as it is or appends the added
path. -/
theorem run_getJsonFiles_eq_addedPaths (calls : List Call) :
    (run calls).getJsonFiles.1 = addedPaths calls ∧
    (run calls).getJsonFiles.1.length = numAdds calls ∧
    (∀ (self : JsonManager) (c : Call),
      (c.exec self).json_files_ = self.json_files_ ∨
      ∃ p, c = Call.addJsonFile p ∧ (c.exec self).json_files_ = self.json_files_ ++ [p]) := by
  refine ⟨?_, ?_, ?_⟩
  · simp [JsonManager.getJsonFiles, run_json_files]
  · simp [JsonManager.getJsonFiles, run_json_files, addedPaths_length]
  · intro self c
    cases c with
    | addJsonFile p => exact Or.inr ⟨p, rfl, rfl⟩
    | getJsonFiles => exact Or.inl rfl
    | analyzeRelationships => exact Or.inl rfl

/-- C5: `analyzeRelationships` is total, returns no value (the unit), and leaves the
registered sequence as it was: `getJsonFiles()` after the call equals `getJsonFiles()`
before it, for every registry state. -/
theorem analyzeRelationships_keeps_json_files (self : JsonManager) :
    self.analyzeRelationships.1 = () ∧
    self.analyzeRelationships.2.json_files_ = self.json_files_ ∧
    self.analyzeRelationships.2.getJsonFiles.1 = self.getJsonFiles.1 :=
  ⟨rfl, rfl, rfl⟩

/-- C6: on a manager reached from construction by any calls, `analyzeRelationships`
appends to the console exactly one line, `Analyzing relationships between <n> JSON
files...`, where `<n>` is the decimal rendering of the length of `getJsonFiles()` at the
time of the call, which is the number of `addJsonFile` calls made so far. -/
theorem analyzeRelationships_logs_count (calls : List Call) :
    (run calls).analyzeRelationships.2.cout = (run calls).cout ++
      ("Analyzing relationships between " ++ Nat.repr (run calls).getJsonFiles.1.length
        ++ " JSON files..." ++ "\n") ∧
    consoleLines (run calls).analyzeRelationships.2.cout = consoleLines (run calls).cout ++
      ["Analyzing relationships between " ++ Nat.repr (run calls).getJsonFiles.1.length
        ++ " JSON files..."] ∧
    (run calls).getJsonFiles.1.length = numAdds calls ∧
    consoleLines (run [.addJsonFile "test1.json", .addJsonFile "test2.json",
        .analyzeRelationships]).cout =
      ["JsonManager constructor called", "Added JSON file: test1.json",
       "Added JSON file: test2.json", "Analyzing relationships between 2 JSON files..."] := by
  refine ⟨?_, ?_, ?_, by decide⟩
  · exact analyzeRelationships_cout _
  · rw [analyzeRelationships_cout]
    exact consoleLines_append_line _ _ (run_terminated calls) (analyzing_line_no_newline _)
  · simp [JsonManager.getJsonFiles, run_json_files, addedPaths_length]

/-- C7: `getJsonFiles` is a read-only snapshot: it returns the registered sequence (after
any calls on a fresh manager: the added paths in call order) and leaves the manager
unchanged, so that calling it twice in a row returns equal sequences; a sequence returned
before `addJsonFile(p)` keeps its length while a new `getJsonFiles()` is one longer. -/
theorem getJsonFiles_snapshot (self : JsonManager) (p : String) (calls : List Call) :
    self.getJsonFiles.2 = self ∧
    self.getJsonFiles.1 = self.json_files_ ∧
    (run calls).getJsonFiles.1 = addedPaths calls ∧
    self.getJsonFiles.2.getJsonFiles.1 = self.getJsonFiles.1 ∧
    self.getJsonFiles.1.length = self.json_files_.length ∧
    (self.getJsonFiles.2.addJsonFile p).2.getJsonFiles.1.length
      = self.getJsonFiles.1.length + 1 := by
  refine ⟨rfl, rfl, ?_, rfl, rfl, ?_⟩
  · simp [JsonManager.getJsonFiles, run_json_files]
  · simp [JsonManager.getJsonFiles, JsonManager.addJsonFile]

/-- C8: for every registry state with registered sequence `L` and every path `p`, after
`addJsonFile(p)` the registered sequence is exactly `L ++ [p]`: the first `|L|` entries are
those of `L`, the entry at index `|L|` is `p`, the length grows by exactly 1, and the number
of occurrences of `p` grows by exactly 1 (also when `p` already occurs in `L`). -/
theorem addJsonFile_appends (self : JsonManager) (p : String) :
    (self.addJsonFile p).2.getJsonFiles.1 = self.getJsonFiles.1 ++ [p] ∧
    (self.addJsonFile p).2.getJsonFiles.1.take self.getJsonFiles.1.length
      = self.getJsonFiles.1 ∧
    (∀ i : Fin self.getJsonFiles.1.length,
      (self.addJsonFile p).2.getJsonFiles.1[i.1]? = some (self.getJsonFiles.1.get i)) ∧
    (self.addJsonFile p).2.getJsonFiles.1[self.getJsonFiles.1.length]? = some p ∧
    (self.addJsonFile p).2.getJsonFiles.1.length = self.getJsonFiles.1.length + 1 ∧
    (self.addJsonFile p).2.getJsonFiles.1.count p = self.getJsonFiles.1.count p + 1 := by
  have h : (self.addJsonFile p).2.getJsonFiles.1 = self.getJsonFiles.1 ++ [p] := rfl
  rw [h]
  refine ⟨rfl, by simp, ?_, by simp, by simp, by simp⟩
  intro i
  rw [List.getElem?_append_left i.2]
  simp

/-- C9 (as stated, refuted): adding the path `"a\nb"` to a fresh manager appends two lines
to the console, not one, and the paths read off the `Added JSON file: ` lines are `["a"]`
while `getJsonFiles()` is `["a\nb"]`. -/
theorem addJsonFile_newline_path_logs_two_lines :
    consoleLines (JsonManager.construct.addJsonFile "a\nb").2.cout
      = consoleLines JsonManager.construct.cout ++ ["Added JSON file: a", "b"] ∧
    consoleLines (JsonManager.construct.addJsonFile "a\nb").2.cout
      ≠ consoleLines JsonManager.construct.cout ++ ["Added JSON file: " ++ "a\nb"] ∧
    loggedPaths (JsonManager.construct.addJsonFile "a\nb").2.cout = ["a"] ∧
    (JsonManager.construct.addJsonFile "a\nb").2.getJsonFiles.1 = ["a\nb"] ∧
    loggedPaths (JsonManager.construct.addJsonFile "a\nb").2.cout
      ≠ (JsonManager.construct.addJsonFile "a\nb").2.getJsonFiles.1 := by
  decide

/-- C9 (amended): for every state and every path `p`, `addJsonFile(p)` writes the
characters `Added JSON file: `, `p` verbatim and a line feed; when `p` contains no line
feed, the call (on a manager reached from construction by any calls) appends exactly one
line to the console, `Added JSON file: ` followed by `p` verbatim; and when no path added
to a fresh manager contains a line feed, the paths read off the `Added JSON file: ` lines
of the console equal `getJsonFiles()`, before the call and (for `p` without a line feed)
after it. -/
theorem addJsonFile_logs_one_line (self : JsonManager) (calls : List Call) (p : String) :
    (self.addJsonFile p).2.cout = self.cout ++ ("Added JSON file: " ++ p ++ "\n") ∧
    ('\n' ∉ p.data →
      consoleLines ((run calls).addJsonFile p).2.cout
        = consoleLines (run calls).cout ++ ["Added JSON file: " ++ p]) ∧
    ((∀ q ∈ addedPaths calls, '\n' ∉ q.data) →
      loggedPaths (run calls).cout = (run calls).getJsonFiles.1) ∧
    ('\n' ∉ p.data → (∀ q ∈ addedPaths calls, '\n' ∉ q.data) →
      loggedPaths ((run calls).addJsonFile p).2.cout
        = ((run calls).addJsonFile p).2.getJsonFiles.1) := by
  refine ⟨addJsonFile_cout _ _, ?_, ?_, ?_⟩
  · intro hp
    rw [addJsonFile_cout]
    exact consoleLines_append_line _ _ (run_terminated calls) (added_line_no_newline p hp)
  · intro hq
    exact run_loggedPaths calls hq
  · intro hp hq
    rw [addJsonFile_cout,
      loggedPaths_append_line _ _ (run_terminated calls) (added_line_no_newline p hp),
      addedLinePath_added, run_loggedPaths calls hq]
    rfl

/-- Witness for C9 (amended): `addJsonFile("test2.json")` after `addJsonFile("test1.json")`
and `analyzeRelationships()` on a fresh manager; the first, unconditional part is also
applied at the path `"a\nb"` on a fresh manager. -/
theorem addJsonFile_logs_one_line_witness :
    '\n' ∉ "test2.json".data ∧
    (∀ q ∈ addedPaths [.addJsonFile "test1.json", .analyzeRelationships], '\n' ∉ q.data) ∧
    (JsonManager.construct.addJsonFile "a\nb").2.cout
      = JsonManager.construct.cout ++ ("Added JSON file: " ++ "a\nb" ++ "\n") ∧
    consoleLines ((run [.addJsonFile "test1.json", .analyzeRelationships]).addJsonFile
        "test2.json").2.cout
      = consoleLines (run [.addJsonFile "test1.json", .analyzeRelationships]).cout
          ++ ["Added JSON file: " ++ "test2.json"] ∧
    loggedPaths (run [.addJsonFile "test1.json", .analyzeRelationships]).cout
      = (run [.addJsonFile "test1.json", .analyzeRelationships]).getJsonFiles.1 ∧
    loggedPaths ((run [.addJsonFile "test1.json", .analyzeRelationships]).addJsonFile
        "test2.json").2.cout
      = ((run [.addJsonFile "test1.json", .analyzeRelationships]).addJsonFile
        "test2.json").2.getJsonFiles.1 :=
  have h := addJsonFile_logs_one_line JsonManager.construct
    [.addJsonFile "test1.json", .analyzeRelationships] "test2.json"
  have g := addJsonFile_logs_one_line JsonManager.construct [] "a\nb"
  ⟨by decide, by decide, g.1, h.2.1 (by decide), h.2.2.1 (by decide),
    h.2.2.2 (by decide) (by decide)⟩

end manyjson
